import Mathlib

set_option maxRecDepth 100000

/-!
Verification model of the `md-blog-generator` rendering pipeline
(`src/blog_gen/blog_generator.rs`, `src/blog_gen/html_template.rs`,
`src/main.rs`).

Text is modelled as `List Char`.  The filesystem is modelled as explicit
data: each discovered Markdown file carries its contents and Boolean flags
saying whether the individual I/O operations the code performs on it
(`File::open`, `.metadata()`, `.created()`, `File::create`, `write_all`)
succeed.  Rust panics (`unwrap` on `Err`/`None`, index out of bounds) are
modelled as the `Outcome.panic` result; `Err` returns of `render` are
`Outcome.fatal`.

The external libraries the code calls are modelled by their observable
behaviour on the inputs the claims exercise:

* `pulldown_cmark` (`Parser::new_ext` + `html::push_html`): modelled for
  ATX headings (`#`..`######` followed by a space), plain paragraph lines,
  `*...*` emphasis, backslash escapes of ASCII punctuation, and the
  HTML-escaping of `<sp>&<` `"` in text.  Raw inline HTML, multi-line
  paragraph merging, `**strong**`, and smart punctuation are outside the
  modelled fragment; the theorems below restrict their quantifiers to the
  modelled fragment.
* `scraper` (`Html::parse_fragment`, `select("h1")`, `.text()`): modelled
  by scanning the generated HTML for the first `<h1>` element and walking
  its children for the first text node, undoing the entity escaping.
* `glob::glob`: yields directory entries in alphabetical file-name order;
  each entry is either a path or a `GlobError` (which the code skips).
* `tera`: the two templates are fixed valid constants, so
  `add_raw_template` and `render` always succeed; the substitution is
  plain splicing (no autoescape: the template names `"html"`/`"index"`
  have no `.html` suffix).  The index template's `{% for %}` loop becomes
  a `List.map` over the pages.
* Rust's `Vec::sort_by` is a stable sort; any stable sort by the same key
  computes the same list, so it is modelled by a stable insertion sort.
* `format!("{:?}", s)` on a `&str` produces the string wrapped in double
  quotes with `escape_debug` applied to every character; modelled for
  ASCII (printable characters unchanged, `\"` `\\` `\n` `\t` `\r` `\0`
  two-character escapes, other control characters as `\u{..}` hex
  escapes).
-/

namespace MdBlogGen

/-! ## Character classes and small string utilities -/

/-- ASCII punctuation, the set a backslash escapes in CommonMark:
`!` through `/`, `:` through `@`, `[` through `` ` ``, and the last
printable block. -/
def isAsciiPunct (c : Char) : Bool :=
  (33 ≤ c.toNat && c.toNat ≤ 47) || (58 ≤ c.toNat && c.toNat ≤ 64) ||
  (91 ≤ c.toNat && c.toNat ≤ 96) || (123 ≤ c.toNat && c.toNat ≤ 126)

/-- Characters with no special meaning anywhere in the modelled pipeline:
ASCII letters, digits, and the space.  Quantified theorems restrict
heading/paragraph text to these. -/
def plainChar (c : Char) : Bool :=
  (65 ≤ c.toNat && c.toNat ≤ 90) || (97 ≤ c.toNat && c.toNat ≤ 122) ||
  (48 ≤ c.toNat && c.toNat ≤ 57) || c = ' '

/-- Characters the title-derivation step leaves untouched: everything
except a double quote, a backslash, or a control character (code point
below 32).  This is the exact domain on which `escape_debug` is the
identity in the modelled (ASCII-printable) range. -/
def titleSafeChar (c : Char) : Bool :=
  c ≠ '"' && c ≠ '\\' && 32 ≤ c.toNat

/-- Boolean prefix test on character lists (the behaviour of
`str::starts_with` / pattern prefix checks). -/
def isPre : List Char → List Char → Bool
  | [], _ => true
  | _ :: _, [] => false
  | a :: as, b :: bs => if a = b then isPre as bs else false

/-- Does `pat` occur as a contiguous substring? -/
def containsSub (pat : List Char) : List Char → Bool
  | [] => isPre pat []
  | c :: rest => isPre pat (c :: rest) || containsSub pat rest

/-- Number of (possibly overlapping) occurrences of `pat`. -/
def countSub (pat : List Char) : List Char → Nat
  | [] => 0
  | c :: rest => (if isPre pat (c :: rest) = true then 1 else 0) + countSub pat rest

/-- Strict byte-wise lexicographic order on file names; `glob` yields
directory entries in this (alphabetical) order. -/
def strLt : List Char → List Char → Bool
  | [], [] => false
  | [], _ :: _ => true
  | _ :: _, [] => false
  | a :: as, b :: bs => if a < b then true else if b < a then false else strLt as bs

/-! ## The Markdown-to-HTML converter
(model of `pulldown_cmark::html::push_html` on the fragment described in
the header comment) -/

/-- HTML escaping of text characters as `pulldown_cmark::escape` does it. -/
def escapeHtmlChar (c : Char) : List Char :=
  if c = '<' then ['&', 'l', 't', ';']
  else if c = '>' then ['&', 'g', 't', ';']
  else if c = '&' then ['&', 'a', 'm', 'p', ';']
  else if c = '"' then ['&', 'q', 'u', 'o', 't', ';']
  else [c]

/-- Is there a valid emphasis closer ahead: a `*` whose preceding
character is not whitespace (CommonMark right-flanking)?  `prevOk` says
whether the character just before the current position was
non-whitespace, so a `*` right here would be a valid closer. -/
def hasCloser : Bool → List Char → Bool
  | _, [] => false
  | prevOk, c :: rest =>
    if c = '*' then prevOk || hasCloser true rest
    else hasCloser (c ≠ ' ') rest

/-- Can a `*` at this point open emphasis (CommonMark left-flanking for
`*`): the next character exists and is not a space, and a valid closer
occurs later — otherwise the delimiter stays literal. -/
def emOpens : List Char → Bool
  | [] => false
  | d :: rest => d ≠ ' ' && hasCloser false (d :: rest)

/-- Inline rendering of one line of Markdown text into HTML: backslash
escapes of ASCII punctuation, `*...*` emphasis with the CommonMark
flanking conditions (an opener must be followed by non-whitespace and
have a valid closer; a closer must be preceded by non-whitespace, else
the `*` stays literal), HTML-escaping of plain text.  `inEm` says
whether we are inside an open `<em>`; `prevOk` whether the previous
character was non-whitespace (false at the start of the line, which
counts as whitespace).  Delimiter-stack re-pairing (`*a *b*`) and
`**strong**` are outside the modelled fragment. -/
def inlineAux : Bool → Bool → List Char → List Char
  | _, _, [] => []
  | inEm, prevOk, c :: rest =>
    if c = '\\' then
      match rest with
      | [] => ['\\']
      | d :: rest' =>
        if isAsciiPunct d then escapeHtmlChar d ++ inlineAux inEm true rest'
        else '\\' :: d :: inlineAux inEm (d ≠ ' ') rest'
    else if c = '*' then
      if inEm then
        if prevOk then '<' :: '/' :: 'e' :: 'm' :: '>' :: inlineAux false true rest
        else '*' :: inlineAux true true rest
      else if emOpens rest then '<' :: 'e' :: 'm' :: '>' :: inlineAux true false rest
      else '*' :: inlineAux false true rest
    else escapeHtmlChar c ++ inlineAux inEm (c ≠ ' ') rest

/-- Inline Markdown to HTML, outside emphasis, at the start of the line
(which counts as whitespace for the flanking rules). -/
def inlineHtml (l : List Char) : List Char := inlineAux false false l

/-- Whether the position after `t` counts as following non-whitespace:
the last character of `t` when there is one, else the incoming flag. -/
def endsNonSpace (p : Bool) (t : List Char) : Bool :=
  match t.getLast? with
  | none => p
  | some c => decide (c ≠ ' ')

/-- Count the leading `#` characters of a line and return the rest. -/
def countHashes : List Char → Nat × List Char
  | [] => (0, [])
  | c :: rest =>
    if c = '#' then
      let p := countHashes rest
      (p.1 + 1, p.2)
    else (0, c :: rest)

def trimLeadingSpaces (l : List Char) : List Char := l.dropWhile (fun c => c = ' ')

/-- Trim spaces from both ends (heading content is trimmed). -/
def trimSpaces (l : List Char) : List Char :=
  ((trimLeadingSpaces l).reverse.dropWhile (fun c => c = ' ')).reverse

/-- An ATX heading: one to six `#`s followed by a space (or end of line);
returns the level and the trimmed content. -/
def headingLevel (l : List Char) : Option (Nat × List Char) :=
  let p := countHashes l
  if 1 ≤ p.1 && p.1 ≤ 6 then
    match p.2 with
    | [] => some (p.1, [])
    | c :: rest => if c = ' ' then some (p.1, trimSpaces rest) else none
  else none

def digitChar (n : Nat) : Char := Char.ofNat (48 + n)

/-- One source line to an HTML block: blank lines produce nothing, ATX
headings produce `<hN>...</hN>`, other lines a paragraph. -/
def lineToHtml (l : List Char) : List Char :=
  if l.all (fun c => c = ' ') then []
  else
    match headingLevel l with
    | some p =>
      '<' :: 'h' :: digitChar p.1 :: '>' ::
        (inlineHtml p.2 ++ ('<' :: '/' :: 'h' :: digitChar p.1 :: '>' :: '\n' :: []))
    | none =>
      '<' :: 'p' :: '>' :: (inlineHtml l ++ ('<' :: '/' :: 'p' :: '>' :: '\n' :: []))

def splitLinesAux : List Char → List Char → List (List Char)
  | [], acc => [acc.reverse]
  | c :: rest, acc =>
    if c = '\n' then acc.reverse :: splitLinesAux rest []
    else splitLinesAux rest (c :: acc)

/-- Split a document into lines at `\n`. -/
def splitLines (s : List Char) : List (List Char) := splitLinesAux s []

/-- The whole document converter: the HTML fragment `push_html` builds
into `body_content`. -/
def mdToHtml (s : List Char) : List Char := ((splitLines s).map lineToHtml).flatten

/-! ## Re-parsing the fragment for the title
(model of `scraper`: `Html::parse_fragment`, `select("h1").next()`,
`.text().collect()[0]`) -/

def h1Open : List Char := ['<', 'h', '1', '>']

/-- Scan for the first `<h1>` element and return the content after its
opening tag. -/
def findH1 : List Char → Option (List Char)
  | [] => none
  | c :: rest =>
    if isPre h1Open (c :: rest) = true then some ((c :: rest).drop 4)
    else findH1 rest

/-- The raw text up to the next tag. -/
def takeUntilLt : List Char → List Char
  | [] => []
  | c :: rest => if c = '<' then [] else c :: takeUntilLt rest

/-- Undo the HTML entity escapes the serializer produced (what the DOM
text node holds). -/
def unescapeHtml : List Char → List Char
  | '&' :: 'l' :: 't' :: ';' :: rest => '<' :: unescapeHtml rest
  | '&' :: 'g' :: 't' :: ';' :: rest => '>' :: unescapeHtml rest
  | '&' :: 'a' :: 'm' :: 'p' :: ';' :: rest => '&' :: unescapeHtml rest
  | '&' :: 'q' :: 'u' :: 'o' :: 't' :: ';' :: rest => '"' :: unescapeHtml rest
  | '&' :: '#' :: '3' :: '9' :: ';' :: rest => Char.ofNat 39 :: unescapeHtml rest
  | c :: rest => c :: unescapeHtml rest
  | [] => []

/-- Walk the `<h1>` element's children for its first text node, in
document order: skip child tags (the `inTag` state is true while inside
one), stop at `</h1>`, return the first non-empty text run
(entity-decoded).  `text().collect::<Vec<_>>()[0]` of the code. -/
def firstTextNodeAux : Bool → List Char → Option (List Char)
  | _, [] => none
  | true, c :: rest =>
    if c = '>' then firstTextNodeAux false rest else firstTextNodeAux true rest
  | false, c :: rest =>
    if c = '<' then
      if isPre ['/', 'h', '1', '>'] rest = true then none
      else firstTextNodeAux true rest
    else some (unescapeHtml (takeUntilLt (c :: rest)))

def firstTextNode (l : List Char) : Option (List Char) := firstTextNodeAux false l

/-! ## `format!("{:?}", s)` and the quote stripping -/

def hexDigit (n : Nat) : Char := if n < 10 then Char.ofNat (48 + n) else Char.ofNat (87 + n)

/-- Rust `char::escape_debug` on the ASCII range: printable characters
are unchanged, quote/backslash/common controls get two-character escapes,
other controls a `\u{..}` escape. -/
def escapeDebugChar (c : Char) : List Char :=
  if c = '"' then ['\\', '"']
  else if c = '\\' then ['\\', '\\']
  else if c = '\n' then ['\\', 'n']
  else if c = '\t' then ['\\', 't']
  else if c = '\r' then ['\\', 'r']
  else if c.toNat = 0 then ['\\', '0']
  else if c.toNat < 32 then
    ['\\', 'u', Char.ofNat 123] ++
      (if c.toNat < 16 then [hexDigit c.toNat]
       else [hexDigit (c.toNat / 16), hexDigit (c.toNat % 16)]) ++ [Char.ofNat 125]
  else [c]

/-- `format!("{:?}", s)`: the string Debug representation, i.e. the text
wrapped in double quotes with every character escape-debugged.  This is
what the code stores in `title_from_md`. -/
def debugFormat (s : List Char) : List Char :=
  '"' :: (s.map escapeDebugChar).flatten ++ ['"']

/-- `title.replace("\"", "")` — removes every double-quote character. -/
def removeQuotes (s : List Char) : List Char := s.filter (fun c => c ≠ '"')

/-- `str::replace(".md", ".html")` on the file name: every
(non-overlapping, left-to-right) occurrence of `.md` becomes `.html`. -/
def replaceMdHtml : List Char → List Char
  | [] => []
  | [c] => [c]
  | [c, d] => [c, d]
  | c :: d :: e :: rest =>
    if c = '.' ∧ d = 'm' ∧ e = 'd' then
      '.' :: 'h' :: 't' :: 'm' :: 'l' :: replaceMdHtml rest
    else c :: replaceMdHtml (d :: e :: rest)

/-- Does `.md` occur anywhere in the list? -/
def containsMd (s : List Char) : Bool := containsSub ['.', 'm', 'd'] s

/-! ## Data model -/

/-- The error enum `BlogGeneratorError` (payload strings omitted: the
claims only observe which variant is produced). -/
inductive BlogGeneratorError
  | invalidCSSPath
  | cssSourceError
  | invalidMarkDownPath
  | markDownFileError
  | markDownMetadataError
  | invalidRenderedOutputPath
  | fileWriteError
  | templateAddError
  | templateUseError
deriving Repr, DecidableEq

/-- Result of running a piece of the pipeline: a Rust panic (from
`unwrap`/indexing), an `Err` return, or a normal value. -/
inductive Outcome (α : Type)
  | panic (msg : String)
  | fatal (e : BlogGeneratorError)
  | ok (val : α)
deriving Repr, DecidableEq

def Outcome.isOk {α : Type} : Outcome α → Bool
  | .ok _ => true
  | _ => false

def Outcome.isPanic {α : Type} : Outcome α → Bool
  | .panic _ => true
  | _ => false

/-- One discovered Markdown file: the `MarkDownFile` struct of the source
(`file_name`, `created_time`; the full path and the not-yet-derived title
are determined by the rest) together with the filesystem's behaviour on
it: whether `File::open`, `.metadata()`, `.created()` succeed, its
contents, and whether `File::create`/`write_all` of its output page
succeed. -/
structure MarkDownFile where
  file_name : List Char
  created_time : Nat
  content : List Char
  openOk : Bool
  metadataOk : Bool
  createdOk : Bool
  outCreateOk : Bool
  outWriteOk : Bool
deriving Repr, DecidableEq

/-- One entry yielded by `glob(...)`: a path (with the file's data) or a
`GlobError`. -/
inductive GlobEntry
  | ok (f : MarkDownFile)
  | err (msg : List Char)
deriving Repr, DecidableEq

/-- The filesystem state one run sees: the CSS file, the glob listing of
`<markdown_sources_dir>/*.md` (in the alphabetical order `glob`
produces), and whether `File::create`/`write_all` of `index.html`
succeed. -/
structure FileSystem where
  cssOpenOk : Bool
  cssContent : List Char
  globEntries : List GlobEntry
  indexCreateOk : Bool
  indexWriteOk : Bool
deriving Repr, DecidableEq

/-- The `BlogGenerator` struct: configuration as validated by `new`. -/
structure BlogGenerator where
  base_url : List Char
  css_source_file : List Char
  markdown_sources_dir : List Char
  rendered_outputs_dir : List Char
deriving Repr, DecidableEq

/-- The `Page` struct serialized into the index template. -/
structure Page where
  title : List Char
  url : List Char
deriving Repr, DecidableEq

/-- Observable result of a successful `render` run: the accumulated
`pages` vector, the output files written for documents (path and
contents, in loop order), and the `index.html` write if it happened. -/
structure RunResult where
  pages : List Page
  writtenPages : List (List Char × List Char)
  indexWrite : Option (List Char × List Char)
deriving Repr, DecidableEq

/-! ## Templates (`html_template.rs`) and their substitution -/

/-- `get_html_template()` up to `{{ css_from_source }}`. -/
def pageTemplatePrefix : List Char :=
  "\n<!doctype html>\n<html>\n<head>\n<style>\n".toList

/-- `get_html_template()` between `{{ css_from_source }}` and
`{{ body_content }}`. -/
def pageTemplateMid : List Char :=
  "\n\nimg \x7b\n    max-width: 200px;\n\x7d\n\n</style>\n</head>\n\n<body>\n".toList

/-- `get_html_template()` after `{{ body_content }}`. -/
def pageTemplateSuffix : List Char :=
  "\n</body>\n\n</html>\n".toList

/-- `tera.render("html", ...)`: the fixed page template with the CSS text
and the HTML fragment spliced in. -/
def renderPageHtml (css body : List Char) : List Char :=
  pageTemplatePrefix ++ css ++ pageTemplateMid ++ body ++ pageTemplateSuffix

/-- `get_index_page_template()` up to the `{% for %}` loop. -/
def indexTemplatePrefix : List Char :=
  ("\n<!doctype html>\n<html>\n<head>\n<style>\n" ++
   "    html, body \x7b\n        display: flex;\n        align-items: center;\n" ++
   "        justify-content: center;\n        height: 100%;\n" ++
   "        background-color: #222;\n        min-height: 100%;\n    \x7d\n\n" ++
   "    .body \x7b\n        color: #fafafa;\n    \x7d\n\n" ++
   "    .container \x7b\n        display: flex;\n        justify-content: center;\n" ++
   "        align-items: center;\n        align-content: center;\n" ++
   "        flex-direction: column;\n        min-width: 500px;\n        height: 80%;\n" ++
   "        margin: 0;\n        min-height: 80%;\n    \x7d\n\n" ++
   "    .row-item \x7b\n        display: flex;\n        position: relative;\n" ++
   "        width: 100%;\n        padding: 5px;\n        align-items: center;\n" ++
   "        justify-content: center;\n    \x7d\n    \n" ++
   "    a \x7b\n        text-decoration: none;\n    \x7d\n\n" ++
   "    a, a:visited, a:hover, a:active \x7b\n        color: #fafafa;\n    \x7d\n\n" ++
   "    a:hover \x7b\n        font-weight: bold;\n    \x7d\n</style>\n</head>\n\n" ++
   "<body>\n<div class=\"container\">\n    ").toList

/-- `get_index_page_template()` after the loop. -/
def indexTemplateSuffix : List Char :=
  "\n</div>\n</body>\n</html>\n".toList

/-- One iteration of the index template's `{% for page in pages %}`
loop. -/
def pageLinkHtml (p : Page) : List Char :=
  "<div class=\"row-item\"><a href=\"".toList ++ p.url ++ "\">".toList ++
    p.title ++ "</a></div>".toList

/-- `tera.render("index", ...)`: the index template with the loop
expanded over `pages`, in order. -/
def renderIndexHtml (pages : List Page) : List Char :=
  indexTemplatePrefix ++ (pages.map pageLinkHtml).flatten ++ indexTemplateSuffix

/-- Number of page links in a rendered document. -/
def linkCount (s : List Char) : Nat := countSub "<a href=".toList s

/-! ## The `render` pipeline (`BlogGenerator::render`) -/

/-- Discovery loop (lines 134-171): for each glob entry, a `GlobError` is
printed and skipped, otherwise the file is opened and its metadata and
creation time are read — each of the three through `.unwrap()`, so a
failure panics and aborts the run. -/
def collectFiles : List GlobEntry → Outcome (List MarkDownFile)
  | [] => Outcome.ok []
  | GlobEntry.err _ :: rest => collectFiles rest
  | GlobEntry.ok f :: rest =>
    if f.openOk = false then
      Outcome.panic "called Result::unwrap on an Err value: File::open of a markdown source"
    else if f.metadataOk = false then
      Outcome.panic "called Result::unwrap on an Err value: metadata of a markdown source"
    else if f.createdOk = false then
      Outcome.panic "called Result::unwrap on an Err value: created() unavailable"
    else
      match collectFiles rest with
      | Outcome.ok fs => Outcome.ok (f :: fs)
      | Outcome.panic m => Outcome.panic m
      | Outcome.fatal e => Outcome.fatal e

/-- The files a fully successful discovery loop collects, in glob
order. -/
def globOks : List GlobEntry → List MarkDownFile
  | [] => []
  | GlobEntry.err _ :: rest => globOks rest
  | GlobEntry.ok f :: rest => f :: globOks rest

/-- Stable insertion of one file into a list already sorted by
`created_time` (ascending): goes before the first element with a
creation time that is not smaller. -/
def insertByTime (a : MarkDownFile) : List MarkDownFile → List MarkDownFile
  | [] => [a]
  | b :: bs =>
    if a.created_time ≤ b.created_time then a :: b :: bs
    else b :: insertByTime a bs

/-- `markdown_files_sorted.sort_by(|a, b| a.created_time.cmp(&b.created_time))`
(line 175): Rust's `sort_by` is stable, and every stable sort by the same
key computes the same list, so it is modelled by this stable insertion
sort. -/
def sortByCreated : List MarkDownFile → List MarkDownFile
  | [] => []
  | a :: l => insertByTime a (sortByCreated l)

/-- Title scraping (lines 213-221): parse the fragment, take the first
`<h1>` (`.next().unwrap()` — panics when there is none), collect its text
nodes and take element `[0]` (panics when the heading has no text), then
store `format!("{:?}", ...)` of it. -/
def extractTitleOutcome (content : List Char) : Outcome (List Char) :=
  match findH1 (mdToHtml content) with
  | none => Outcome.panic "called Option::unwrap on a None value: no h1 element"
  | some inner =>
    match firstTextNode inner with
    | none => Outcome.panic "index out of bounds: the len is 0 but the index is 0"
    | some t => Outcome.ok (debugFormat t)

/-- The derived (quoted) title, as an `Option`. -/
def titleQuotedOf (content : List Char) : Option (List Char) :=
  match extractTitleOutcome content with
  | Outcome.ok t => some t
  | _ => none

/-- The text the re-parse yields for a document: the first text node of
the first `<h1>` of the converted fragment (before the Debug
formatting). -/
def reparsedH1Text (content : List Char) : Option (List Char) :=
  match findH1 (mdToHtml content) with
  | none => none
  | some inner => firstTextNode inner

/-- The final PageLink title a document yields: the quoted Debug title
with every double quote removed (line 246). -/
def pageTitleOf (content : List Char) : Option (List Char) :=
  match titleQuotedOf content with
  | none => none
  | some tq => some (removeQuotes tq)

/-- Output file name: base name with every `.md` replaced (line 232). -/
def outFileName (name : List Char) : List Char := replaceMdHtml name

/-- `format!("{}/{}", rendered_outputs_dir, out_file_name)` (line 235). -/
def outPath (g : BlogGenerator) (name : List Char) : List Char :=
  g.rendered_outputs_dir ++ ('/' :: outFileName name)

/-- The `Page` pushed for a document that survives the whole loop
(lines 245-249): title with all double quotes removed, URL
`base_url + out_file_name`. -/
def mkPage (g : BlogGenerator) (f : MarkDownFile) : Page :=
  { title := (pageTitleOf f.content).getD []
    url := g.base_url ++ outFileName f.file_name }

/-- The body of the per-document loop (lines 184-262) for one file.
The file was already opened successfully during discovery, so the second
`File::open` succeeds and `md_content` is the file's text.  The template
render succeeds (the template is a fixed valid constant).  `File::create`
of the output goes through `.unwrap()` — a failure panics; a `write_all`
failure is printed and skips the document (`continue`). -/
def processDoc (g : BlogGenerator) (f : MarkDownFile) : Outcome (Option Page) :=
  match extractTitleOutcome f.content with
  | Outcome.panic m => Outcome.panic m
  | Outcome.fatal e => Outcome.fatal e
  | Outcome.ok _ =>
    if f.outCreateOk = false then
      Outcome.panic "called Result::unwrap on an Err value: File::create of an output page"
    else if f.outWriteOk = false then Outcome.ok none
    else Outcome.ok (some (mkPage g f))

/-- The per-document loop over the sorted list, accumulating pages and
written files in order. -/
def renderDocs (g : BlogGenerator) (css : List Char) :
    List MarkDownFile → Outcome (List Page × List (List Char × List Char))
  | [] => Outcome.ok ([], [])
  | f :: rest =>
    match processDoc g f with
    | Outcome.panic m => Outcome.panic m
    | Outcome.fatal e => Outcome.fatal e
    | Outcome.ok none => renderDocs g css rest
    | Outcome.ok (some pg) =>
      match renderDocs g css rest with
      | Outcome.ok pr =>
        Outcome.ok (pg :: pr.1,
          (outPath g f.file_name, renderPageHtml css (mdToHtml f.content)) :: pr.2)
      | Outcome.panic m => Outcome.panic m
      | Outcome.fatal e => Outcome.fatal e

def indexPath (g : BlogGenerator) : List Char :=
  g.rendered_outputs_dir ++ "/index.html".toList

/-- `BlogGenerator::render` (lines 108-291): read the CSS (an open
failure returns `Err(InvalidCSSPath)`; a read failure is swallowed by
`let _ =`), discover and sort the sources, run the per-document loop,
then render the index.  `File::create` of `index.html` goes through
`.unwrap()` — a failure panics; a `write_all` failure of the index is
mapped to an error that `let _ =` then discards, so the run still
returns `Ok(())`. -/
def render (g : BlogGenerator) (fs : FileSystem) : Outcome RunResult :=
  if fs.cssOpenOk = false then Outcome.fatal BlogGeneratorError.invalidCSSPath
  else
    match collectFiles fs.globEntries with
    | Outcome.panic m => Outcome.panic m
    | Outcome.fatal e => Outcome.fatal e
    | Outcome.ok files =>
      match renderDocs g fs.cssContent (sortByCreated files) with
      | Outcome.panic m => Outcome.panic m
      | Outcome.fatal e => Outcome.fatal e
      | Outcome.ok pr =>
        if fs.indexCreateOk = false then
          Outcome.panic "called Result::unwrap on an Err value: File::create of index.html"
        else if fs.indexWriteOk = false then
          Outcome.ok { pages := pr.1, writtenPages := pr.2, indexWrite := none }
        else
          Outcome.ok { pages := pr.1, writtenPages := pr.2,
                       indexWrite := some (indexPath g, renderIndexHtml pr.1) }

/-- The index order the spec demands: strictly earlier creation time, or
equal creation time and strictly earlier file name. -/
def keyLt (a b : MarkDownFile) : Prop :=
  a.created_time < b.created_time ∨
    (a.created_time = b.created_time ∧ strLt a.file_name b.file_name = true)

/-- Decidable check that a list of files has pairwise strictly ascending
file names — what `glob`'s alphabetical order yields for a directory of
distinct names. -/
def namesPairwiseB : List MarkDownFile → Bool
  | [] => true
  | a :: rest => rest.all (fun b => strLt a.file_name b.file_name) && namesPairwiseB rest

/-! ## Shared example configuration for concrete runs -/

/-- A markdown file every filesystem operation succeeds on. -/
def mkOkFile (name content : String) (t : Nat) : MarkDownFile :=
  ⟨name.toList, t, content.toList, true, true, true, true, true⟩

/-- The configuration `main.rs` builds (base URL `./`). -/
def gEx : BlogGenerator :=
  ⟨"./".toList, "css_sources/retro.css".toList, "md_sources".toList,
    "rendered_html".toList⟩

def cssEx : List Char := "body".toList

/-! ## Concrete example inputs used by the claim theorems -/

def fsC1 : FileSystem :=
  ⟨true, cssEx,
   [GlobEntry.ok (mkOkFile "a.md" "# Alpha" 5),
    GlobEntry.ok (mkOkFile "b.md" "# Beta" 5),
    GlobEntry.ok (mkOkFile "z.md" "# Zed" 1)], true, true⟩

def pagesC1 : List Page :=
  [⟨"Zed".toList, "./z.html".toList⟩,
   ⟨"Alpha".toList, "./a.html".toList⟩,
   ⟨"Beta".toList, "./b.html".toList⟩]

def rC1 : RunResult :=
  ⟨pagesC1,
   [(outPath gEx "z.md".toList, renderPageHtml cssEx (mdToHtml "# Zed".toList)),
    (outPath gEx "a.md".toList, renderPageHtml cssEx (mdToHtml "# Alpha".toList)),
    (outPath gEx "b.md".toList, renderPageHtml cssEx (mdToHtml "# Beta".toList))],
   some (indexPath gEx, renderIndexHtml pagesC1)⟩

def fsC2open : FileSystem :=
  ⟨true, cssEx,
   [GlobEntry.ok (mkOkFile "a.md" "# Alpha" 1),
    GlobEntry.ok { mkOkFile "b.md" "# Beta" 2 with openOk := false }], true, true⟩

def fsC2meta : FileSystem :=
  ⟨true, cssEx,
   [GlobEntry.ok (mkOkFile "a.md" "# Alpha" 1),
    GlobEntry.ok { mkOkFile "b.md" "# Beta" 2 with metadataOk := false }], true, true⟩

def fsC2created : FileSystem :=
  ⟨true, cssEx,
   [GlobEntry.ok (mkOkFile "a.md" "# Alpha" 1),
    GlobEntry.ok { mkOkFile "b.md" "# Beta" 2 with createdOk := false }], true, true⟩

def fsC3 : FileSystem :=
  ⟨true, cssEx,
   [GlobEntry.ok (mkOkFile "a.md" "plain text without any heading" 1),
    GlobEntry.ok (mkOkFile "b.md" "# Fine" 2)], true, true⟩

def fsC4create : FileSystem :=
  ⟨true, cssEx,
   [GlobEntry.ok { mkOkFile "a.md" "# Alpha" 1 with outCreateOk := false }],
   true, true⟩

def fsC4write : FileSystem :=
  ⟨true, cssEx,
   [GlobEntry.ok { mkOkFile "a.md" "# Alpha" 1 with outWriteOk := false }],
   true, true⟩

def fsC5write : FileSystem :=
  ⟨true, cssEx, [GlobEntry.ok (mkOkFile "a.md" "# Alpha" 1)], true, false⟩

def fsC5create : FileSystem :=
  ⟨true, cssEx, [GlobEntry.ok (mkOkFile "a.md" "# Alpha" 1)], false, true⟩

def rC5 : RunResult :=
  ⟨[⟨"Alpha".toList, "./a.html".toList⟩],
   [(outPath gEx "a.md".toList, renderPageHtml cssEx (mdToHtml "# Alpha".toList))],
   none⟩

def fsC6 : FileSystem :=
  ⟨true, cssEx, [GlobEntry.ok (mkOkFile "a.md.md" "# Title" 1)], true, true⟩

def pagesC6 : List Page := [⟨"Title".toList, "./a.html.html".toList⟩]

def rC6 : RunResult :=
  ⟨pagesC6,
   [(outPath gEx "a.md.md".toList, renderPageHtml cssEx (mdToHtml "# Title".toList))],
   some (indexPath gEx, renderIndexHtml pagesC6)⟩

def fsC9 : FileSystem := ⟨true, cssEx, [], true, true⟩

def contentC8 : List Char := "Intro text\n# Title\nMore *text*".toList

def contentC10 : List Char := "# Hello *World*".toList

/-! # Theorems

## Claim C1: index link order -/

theorem namesPairwiseB_pairwise :
    ∀ {l : List MarkDownFile}, namesPairwiseB l = true →
      l.Pairwise (fun a b => strLt a.file_name b.file_name = true) := by
  intro l
  induction l with
  | nil => intro _; exact List.Pairwise.nil
  | cons a rest ih =>
    intro h
    simp only [namesPairwiseB, Bool.and_eq_true, List.all_eq_true] at h
    exact List.Pairwise.cons h.1 (ih h.2)

theorem mem_insertByTime {x a : MarkDownFile} :
    ∀ {l : List MarkDownFile}, x ∈ insertByTime a l → x = a ∨ x ∈ l := by
  intro l
  induction l with
  | nil =>
    intro h
    simp only [insertByTime] at h
    exact Or.inl (List.mem_singleton.mp h)
  | cons b bs ih =>
    intro h
    simp only [insertByTime] at h
    split at h
    · rcases List.mem_cons.mp h with h1 | h1
      · exact Or.inl h1
      · exact Or.inr h1
    · rcases List.mem_cons.mp h with h1 | h1
      · exact Or.inr (h1 ▸ List.mem_cons_self b bs)
      · rcases ih h1 with h2 | h2
        · exact Or.inl h2
        · exact Or.inr (List.mem_cons_of_mem b h2)

theorem pairwise_insertByTime {a : MarkDownFile} :
    ∀ {l : List MarkDownFile}, l.Pairwise keyLt →
      (∀ b ∈ l, strLt a.file_name b.file_name = true) →
      (insertByTime a l).Pairwise keyLt := by
  intro l
  induction l with
  | nil =>
    intro _ _
    simp only [insertByTime]
    exact List.pairwise_singleton keyLt a
  | cons b bs ih =>
    intro hp hn
    rcases List.pairwise_cons.mp hp with ⟨hb, hbs⟩
    simp only [insertByTime]
    split
    · rename_i hle
      refine List.Pairwise.cons ?_ hp
      intro c hc
      rcases List.mem_cons.mp hc with rfl | hc'
      · rcases Nat.lt_or_ge a.created_time c.created_time with h1 | h1
        · exact Or.inl h1
        · exact Or.inr ⟨Nat.le_antisymm hle h1, hn c (List.mem_cons_self c bs)⟩
      · have hbtct : b.created_time ≤ c.created_time := by
          rcases hb c hc' with h1 | h1
          · exact Nat.le_of_lt h1
          · exact Nat.le_of_eq h1.1
        rcases Nat.lt_or_ge a.created_time c.created_time with h1 | h1
        · exact Or.inl h1
        · exact Or.inr ⟨Nat.le_antisymm (Nat.le_trans hle hbtct) h1,
            hn c (List.mem_cons_of_mem b hc')⟩
    · rename_i hgt
      have hba : b.created_time < a.created_time := Nat.not_le.mp hgt
      refine List.Pairwise.cons ?_
        (ih hbs (fun c hc => hn c (List.mem_cons_of_mem b hc)))
      intro c hc
      rcases mem_insertByTime hc with rfl | hc'
      · exact Or.inl hba
      · exact hb c hc'

theorem mem_sortByCreated {x : MarkDownFile} :
    ∀ {l : List MarkDownFile}, x ∈ sortByCreated l → x ∈ l := by
  intro l
  induction l with
  | nil => intro h; simp [sortByCreated] at h
  | cons a as ih =>
    intro h
    simp only [sortByCreated] at h
    rcases mem_insertByTime h with h' | h'
    · exact List.mem_cons.mpr (Or.inl h')
    · exact List.mem_cons.mpr (Or.inr (ih h'))

theorem pairwise_sortByCreated :
    ∀ {l : List MarkDownFile},
      l.Pairwise (fun a b => strLt a.file_name b.file_name = true) →
      (sortByCreated l).Pairwise keyLt := by
  intro l
  induction l with
  | nil => intro _; exact List.Pairwise.nil
  | cons a as ih =>
    intro h
    rcases List.pairwise_cons.mp h with ⟨ha, has⟩
    simp only [sortByCreated]
    exact pairwise_insertByTime (ih has) (fun b hb => ha b (mem_sortByCreated hb))

theorem collectFiles_ok :
    ∀ {es : List GlobEntry} {files : List MarkDownFile},
      collectFiles es = Outcome.ok files → files = globOks es := by
  intro es
  induction es with
  | nil =>
    intro files h
    simp only [collectFiles] at h
    cases h
    rfl
  | cons e rest ih =>
    intro files h
    cases e with
    | err m =>
      simp only [collectFiles] at h
      simp only [globOks]
      exact ih h
    | ok f =>
      simp only [collectFiles] at h
      split at h
      · cases h
      · split at h
        · cases h
        · split at h
          · cases h
          · split at h
            · rename_i fs hfs
              cases h
              simp only [globOks]
              rw [ih hfs]
            · cases h
            · cases h

theorem processDoc_ok_some {g : BlogGenerator} {f : MarkDownFile} {p : Page}
    (h : processDoc g f = Outcome.ok (some p)) : p = mkPage g f := by
  simp only [processDoc] at h
  split at h
  · cases h
  · cases h
  · split at h
    · cases h
    · split at h
      · cases h
      · cases h
        rfl

theorem renderDocs_ok {g : BlogGenerator} {css : List Char} :
    ∀ {ds : List MarkDownFile} {pr : List Page × List (List Char × List Char)},
      renderDocs g css ds = Outcome.ok pr →
      ∃ docs : List MarkDownFile, docs.Sublist ds ∧ pr.1 = docs.map (mkPage g) := by
  intro ds
  induction ds with
  | nil =>
    intro pr h
    simp only [renderDocs] at h
    cases h
    exact ⟨[], List.nil_sublist [], rfl⟩
  | cons f rest ih =>
    intro pr h
    simp only [renderDocs] at h
    split at h
    · cases h
    · cases h
    · obtain ⟨docs, hs, hm⟩ := ih h
      exact ⟨docs, hs.cons f, hm⟩
    · rename_i pg hpg
      split at h
      · rename_i pr' hpr'
        cases h
        obtain ⟨docs, hs, hm⟩ := ih hpr'
        refine ⟨f :: docs, hs.cons₂ f, ?_⟩
        simp [List.map_cons, ← hm, processDoc_ok_some hpg]
      · cases h
      · cases h

/-- C1: for every run that completes successfully, given that `glob`
listed the source files in strictly ascending file-name order, the page
links rendered into `index.html` (the `pages` list, which is exactly
what the index template renders, in order) are the image, in order, of a
sublist of the run's discovered source documents sorted by creation
time — so the links are strictly ascending in creation time, with
file-name order as the tie-break for equal creation times. -/
theorem c1_index_link_order (g : BlogGenerator) (fs : FileSystem) (r : RunResult)
    (hnames : namesPairwiseB (globOks fs.globEntries) = true)
    (hrun : render g fs = Outcome.ok r) :
    ∃ docs : List MarkDownFile,
      docs.Sublist (sortByCreated (globOks fs.globEntries)) ∧
      r.pages = docs.map (mkPage g) ∧ docs.Pairwise keyLt ∧
      (r.indexWrite = none ∨ r.indexWrite = some (indexPath g, renderIndexHtml r.pages)) := by
  simp only [render] at hrun
  split at hrun
  · cases hrun
  · split at hrun
    · cases hrun
    · cases hrun
    · rename_i files hfiles
      split at hrun
      · cases hrun
      · cases hrun
      · rename_i pr hpr
        obtain ⟨docs, hsub, hmap⟩ := renderDocs_ok hpr
        have hfg : files = globOks fs.globEntries := collectFiles_ok hfiles
        have hsub' : docs.Sublist (sortByCreated (globOks fs.globEntries)) :=
          hfg ▸ hsub
        have hpw : (sortByCreated files).Pairwise keyLt :=
          pairwise_sortByCreated (hfg ▸ namesPairwiseB_pairwise hnames)
        have hdocs : docs.Pairwise keyLt := List.Pairwise.sublist hsub hpw
        split at hrun
        · cases hrun
        · split at hrun
          · cases hrun
            exact ⟨docs, hsub', hmap, hdocs, Or.inl rfl⟩
          · cases hrun
            exact ⟨docs, hsub', hmap, hdocs, Or.inr rfl⟩

set_option maxRecDepth 100000 in
/-- Witness for C1: a concrete run with three files, two of them sharing
a creation time, where the hypotheses hold and the links come out in
creation-time order with the file-name tie-break. -/
theorem c1_index_link_order_witness :
    ∃ docs : List MarkDownFile,
      docs.Sublist (sortByCreated (globOks fsC1.globEntries)) ∧
      rC1.pages = docs.map (mkPage gEx) ∧ docs.Pairwise keyLt ∧
      (rC1.indexWrite = none ∨
        rC1.indexWrite = some (indexPath gEx, renderIndexHtml rC1.pages)) :=
  c1_index_link_order gEx fsC1 rC1 (by decide) (by rfl)

/-! ## Claim C2: per-file read/metadata failures -/

/-- C2 fails on the code: when `File::open`, `.metadata()`, or
`.created()` fails for one discovered file, the run does not drop just
that file — the `unwrap`s at lines 147/154 of `blog_generator.rs` panic
and abort the whole run (no index is written, nothing is returned), even
though the other file was perfectly readable. -/
theorem c2_per_file_failure_aborts :
    render gEx fsC2open =
      Outcome.panic "called Result::unwrap on an Err value: File::open of a markdown source" ∧
    render gEx fsC2meta =
      Outcome.panic "called Result::unwrap on an Err value: metadata of a markdown source" ∧
    render gEx fsC2created =
      Outcome.panic "called Result::unwrap on an Err value: created() unavailable" :=
  ⟨rfl, rfl, rfl⟩

/-! ## Claim C3: document without an `<h1>` -/

/-- C3 fails on the code: a document whose converted fragment has no
`<h1>` does not soft-fail — `select(&selector).next().unwrap()` (line
216) panics, aborting the whole run before the second (well-formed)
document is processed and before any index is written. -/
theorem c3_missing_h1_aborts :
    render gEx fsC3 =
      Outcome.panic "called Option::unwrap on a None value: no h1 element" :=
  rfl

/-! ## Claim C4: output-page write failures -/

/-- C4 fails on the code for the `File::create` half: a failure to create
the output file panics through the `unwrap` at line 241 and aborts the
run.  Only a failure of `write_all` after a successful create is handled
as the claim says (document skipped, no page link, index still
rendered). -/
theorem c4_output_create_failure_aborts :
    render gEx fsC4create =
      Outcome.panic "called Result::unwrap on an Err value: File::create of an output page" ∧
    render gEx fsC4write =
      Outcome.ok ⟨[], [], some (indexPath gEx, renderIndexHtml [])⟩ :=
  ⟨rfl, rfl⟩

/-! ## Claim C5: index write failures -/

/-- C5 fails on the code: when `write_all` of `index.html` fails, the
mapped error is discarded by `let _ =` (line 280) and `render` returns
`Ok(())` — success with no index written — instead of reporting an
error.  (When `File::create` of the index fails the run aborts by panic,
not by an error return.) -/
theorem c5_index_write_failure_returns_ok :
    render gEx fsC5write = Outcome.ok rC5 ∧
    render gEx fsC5create =
      Outcome.panic "called Result::unwrap on an Err value: File::create of index.html" :=
  ⟨rfl, rfl⟩

/-! ## Claim C6: output file naming -/

/-- Counterexample to C6: for the source file `a.md.md` the claim demands
output name `a.md.html` (only the trailing extension replaced, the rest
unchanged), but `replace(".md", ".html")` (line 232) replaces every
occurrence, and the run writes `a.html.html`. -/
theorem c6_counterexample :
    outFileName "a.md.md".toList = "a.html.html".toList ∧
    render gEx fsC6 = Outcome.ok rC6 ∧
    "a.html.html".toList ≠ "a.md.html".toList :=
  ⟨rfl, rfl, by decide⟩

theorem isPre_md_of_append {cs : List Char} (h : isPre ['m', 'd'] cs = false) :
    isPre ['m', 'd'] (cs ++ '.' :: 'm' :: 'd' :: []) = false := by
  rcases cs with _ | ⟨d, _ | ⟨e, cs'⟩⟩
  · rfl
  · simp only [List.cons_append, List.nil_append, isPre]
    split
    · rfl
    · rfl
  · simp only [List.cons_append, isPre]
    simp only [isPre] at h
    exact h

theorem replaceMdHtml_cons_of_not (c : Char) (rest : List Char)
    (h : isPre ['.', 'm', 'd'] (c :: rest) = false) :
    replaceMdHtml (c :: rest) = c :: replaceMdHtml rest := by
  rcases rest with _ | ⟨d, _ | ⟨e, r⟩⟩
  · rfl
  · rfl
  · rw [replaceMdHtml]
    rw [if_neg ?hne]
    case hne =>
      rintro ⟨rfl, rfl, rfl⟩
      simp [isPre] at h

/-- C6 amended: the output file name is the source base name with every
occurrence of the substring `.md` replaced by `.html`; in particular,
when `.md` occurs only as the trailing extension the output is the stem
with the extension swapped and the rest unchanged. -/
theorem c6_amended (stem : List Char) (h : containsMd stem = false) :
    outFileName (stem ++ ['.', 'm', 'd']) = stem ++ ".html".toList := by
  induction stem with
  | nil => rfl
  | cons c cs ih =>
    simp only [containsMd, containsSub, Bool.or_eq_false_iff] at h
    have hstep : isPre ['.', 'm', 'd'] (c :: (cs ++ ['.', 'm', 'd'])) = false := by
      by_cases hc : c = '.'
      · subst hc
        have hmd : isPre ['m', 'd'] cs = false := by simpa [isPre] using h.1
        simpa [isPre] using isPre_md_of_append hmd
      · simp only [isPre]
        rw [if_neg (fun hh => hc hh.symm)]
    have h2 : containsMd cs = false := h.2
    calc replaceMdHtml ((c :: cs) ++ ['.', 'm', 'd'])
        = c :: replaceMdHtml (cs ++ ['.', 'm', 'd']) :=
          replaceMdHtml_cons_of_not c _ hstep
      _ = c :: (cs ++ ".html".toList) := by
          have := ih h2
          simp only [outFileName] at this
          rw [this]
      _ = (c :: cs) ++ ".html".toList := rfl

/-- Witness for the amended C6 at the stem `hello`. -/
theorem c6_amended_witness :
    containsMd "hello".toList = false ∧
    outFileName ("hello".toList ++ ['.', 'm', 'd']) = "hello".toList ++ ".html".toList :=
  ⟨by decide, c6_amended "hello".toList (by decide)⟩

/-! ## Claim C7: title artifacts -/

theorem plainChar_facts {c : Char} (h : plainChar c = true) :
    c ≠ '"' ∧ c ≠ '\\' ∧ 32 ≤ c.toNat := by
  have hd := h
  simp only [plainChar, Bool.or_eq_true, Bool.and_eq_true, decide_eq_true_eq] at hd
  refine ⟨?_, ?_, ?_⟩
  · intro hc
    rw [hc] at h
    exact absurd h (by decide)
  · intro hc
    rw [hc] at h
    exact absurd h (by decide)
  · rcases hd with ((⟨h1, _⟩ | ⟨h1, _⟩) | ⟨h1, _⟩) | rfl
    · omega
    · omega
    · omega
    · decide

theorem titleSafeChar_facts {c : Char} (h : titleSafeChar c = true) :
    c ≠ '"' ∧ c ≠ '\\' ∧ 32 ≤ c.toNat := by
  have hd := h
  simp only [titleSafeChar, Bool.and_eq_true, decide_eq_true_eq] at hd
  exact ⟨hd.1.1, hd.1.2, hd.2⟩

theorem all_titleSafe_of_all_plain {t : List Char}
    (h : t.all plainChar = true) : t.all titleSafeChar = true := by
  rw [List.all_eq_true] at h ⊢
  intro c hc
  obtain ⟨h1, h2, h3⟩ := plainChar_facts (h c hc)
  simp [titleSafeChar, h1, h2, h3]

theorem escapeDebugChar_safe {c : Char} (h : titleSafeChar c = true) :
    escapeDebugChar c = [c] := by
  obtain ⟨hq, hb, hge⟩ := titleSafeChar_facts h
  have hn : c ≠ '\n' := by
    intro hc; rw [hc] at hge; exact absurd hge (by decide)
  have ht : c ≠ '\t' := by
    intro hc; rw [hc] at hge; exact absurd hge (by decide)
  have hr : c ≠ '\r' := by
    intro hc; rw [hc] at hge; exact absurd hge (by decide)
  have h0 : ¬(c.toNat = 0) := by omega
  have h32 : ¬(c.toNat < 32) := by omega
  simp [escapeDebugChar, hq, hb, hn, ht, hr, h0, h32]

theorem flatten_escapeDebug_safe :
    ∀ {t : List Char}, t.all titleSafeChar = true →
      (t.map escapeDebugChar).flatten = t := by
  intro t
  induction t with
  | nil => intro _; rfl
  | cons c cs ih =>
    intro h
    simp only [List.all_cons, Bool.and_eq_true] at h
    simp [escapeDebugChar_safe h.1, ih h.2]

theorem removeQuotes_quote_cons (X : List Char) :
    removeQuotes ('"' :: X) = removeQuotes X := rfl

theorem removeQuotes_safe_append :
    ∀ {u : List Char}, u.all titleSafeChar = true →
      removeQuotes (u ++ ['"']) = u := by
  intro u
  induction u with
  | nil => intro _; rfl
  | cons a as ih =>
    intro hu
    simp only [List.all_cons, Bool.and_eq_true] at hu
    obtain ⟨h1, _, _⟩ := titleSafeChar_facts hu.1
    have hrec : removeQuotes (as ++ ['"']) = as := ih hu.2
    simp only [List.cons_append, removeQuotes, List.filter_cons] at hrec ⊢
    rw [if_pos (by simp [h1]), hrec]

/-- C9: with a readable CSS file, an empty glob listing (zero `.md`
files), and a writable output directory, `render` returns success with
zero pages and writes an `index.html` whose rendered markup contains
zero page links. -/
theorem c9_empty_source_dir (g : BlogGenerator) (fs : FileSystem)
    (hcss : fs.cssOpenOk = true) (hglob : fs.globEntries = [])
    (hic : fs.indexCreateOk = true) (hiw : fs.indexWriteOk = true) :
    render g fs = Outcome.ok ⟨[], [], some (indexPath g, renderIndexHtml [])⟩ ∧
    linkCount (renderIndexHtml []) = 0 := by
  constructor
  · simp [render, hcss, hglob, hic, hiw, collectFiles, sortByCreated, renderDocs]
  · rfl

/-- Witness for C9: the concrete empty source directory. -/
theorem c9_empty_source_dir_witness :
    (fsC9.cssOpenOk = true ∧ fsC9.globEntries = [] ∧
     fsC9.indexCreateOk = true ∧ fsC9.indexWriteOk = true) ∧
    (render gEx fsC9 = Outcome.ok ⟨[], [], some (indexPath gEx, renderIndexHtml [])⟩ ∧
     linkCount (renderIndexHtml []) = 0) :=
  ⟨⟨rfl, rfl, rfl, rfl⟩, c9_empty_source_dir gEx fsC9 rfl rfl rfl rfl⟩

/-! ## Converter lemmas for claims C8 and C10 -/

theorem plainChar_ne_special {c : Char} (h : plainChar c = true) :
    c ≠ '<' ∧ c ≠ '>' ∧ c ≠ '&' ∧ c ≠ '*' ∧ c ≠ '#' ∧ c ≠ '\n' ∧
      c ≠ '\\' ∧ c ≠ '"' := by
  refine ⟨?_, ?_, ?_, ?_, ?_, ?_, ?_, ?_⟩ <;>
    (intro hc; rw [hc] at h; exact absurd h (by decide))

theorem escapeHtmlChar_plain {c : Char} (h : plainChar c = true) :
    escapeHtmlChar c = [c] := by
  obtain ⟨h1, h2, h3, _, _, _, _, h4⟩ := plainChar_ne_special h
  simp [escapeHtmlChar, h1, h2, h3, h4]

theorem inlineAux_cons_plain (b p : Bool) {c : Char} (rest : List Char)
    (h : plainChar c = true) :
    inlineAux b p (c :: rest) = c :: inlineAux b (decide (c ≠ ' ')) rest := by
  obtain ⟨_, _, _, hstar, _, _, hbsl, _⟩ := plainChar_ne_special h
  rcases rest with _ | ⟨d, r⟩
  · rw [inlineAux.eq_2, if_neg hbsl, if_neg hstar, escapeHtmlChar_plain h]
    rfl
  · rw [inlineAux.eq_3, if_neg hbsl, if_neg hstar, escapeHtmlChar_plain h]
    rfl

theorem endsNonSpace_cons (p : Bool) (a : Char) (as : List Char) :
    endsNonSpace p (a :: as) = endsNonSpace (decide (a ≠ ' ')) as := by
  rcases as with _ | ⟨b, as'⟩
  · rfl
  · simp only [endsNonSpace, List.getLast?_cons_cons]
    cases hx : (b :: as').getLast? with
    | none => simp at hx
    | some x => rfl

theorem inlineAux_append_plain (b : Bool) :
    ∀ {t : List Char} (p : Bool) (rest : List Char), t.all plainChar = true →
      inlineAux b p (t ++ rest) = t ++ inlineAux b (endsNonSpace p t) rest := by
  intro t
  induction t with
  | nil => intro p rest _; rfl
  | cons a as ih =>
    intro p rest h
    simp only [List.all_cons, Bool.and_eq_true] at h
    rw [List.cons_append, inlineAux_cons_plain b p _ h.1, ih _ rest h.2,
      endsNonSpace_cons]
    rfl

theorem inline_plain {t : List Char} (b p : Bool) (h : t.all plainChar = true) :
    inlineAux b p t = t := by
  have h2 := inlineAux_append_plain b (t := t) p [] h
  have h3 : ∀ q : Bool, inlineAux b q ([] : List Char) = [] := fun q => rfl
  rw [List.append_nil, h3, List.append_nil] at h2
  exact h2

set_option maxHeartbeats 2000000 in
theorem unescapeHtml_cons_ne {c : Char} (rest : List Char) (h : c ≠ '&') :
    unescapeHtml (c :: rest) = c :: unescapeHtml rest := by
  rw [unescapeHtml]
  all_goals first
    | rfl
    | (intros; rename_i h1 h2; exact h h1)

theorem unescapeHtml_plain :
    ∀ {t : List Char}, t.all plainChar = true → unescapeHtml t = t := by
  intro t
  induction t with
  | nil => intro _; rfl
  | cons a as ih =>
    intro h
    simp only [List.all_cons, Bool.and_eq_true] at h
    obtain ⟨_, _, hamp, _, _, _, _, _⟩ := plainChar_ne_special h.1
    rw [unescapeHtml_cons_ne _ hamp, ih h.2]

theorem takeUntilLt_plain_append :
    ∀ {t : List Char} (R : List Char), t.all plainChar = true →
      takeUntilLt (t ++ '<' :: R) = t := by
  intro t
  induction t with
  | nil => intro R _; rfl
  | cons a as ih =>
    intro R h
    simp only [List.all_cons, Bool.and_eq_true] at h
    obtain ⟨hlt, _⟩ := plainChar_ne_special h.1
    rw [List.cons_append, takeUntilLt, if_neg hlt, ih R h.2]

theorem firstTextNode_plain_append (t R : List Char) (hne : t ≠ [])
    (hp : t.all plainChar = true) :
    firstTextNode (t ++ '<' :: R) = some t := by
  rcases t with _ | ⟨c, t'⟩
  · exact absurd rfl hne
  · simp only [List.all_cons, Bool.and_eq_true] at hp
    obtain ⟨hlt, _⟩ := plainChar_ne_special hp.1
    show firstTextNodeAux false (c :: (t' ++ '<' :: R)) = some (c :: t')
    rw [firstTextNodeAux, if_neg hlt]
    have htake : takeUntilLt ((c :: t') ++ '<' :: R) = c :: t' :=
      takeUntilLt_plain_append R (by simp [List.all_cons, hp.1, hp.2])
    rw [List.cons_append] at htake
    rw [htake]
    rw [unescapeHtml_plain (by simp [List.all_cons, hp.1, hp.2])]

theorem findH1_cons_ne {c : Char} (rest : List Char) (h : c ≠ '<') :
    findH1 (c :: rest) = findH1 rest := by
  have hp : isPre h1Open (c :: rest) = false := by
    simp only [h1Open, isPre]
    rw [if_neg (fun hh => h hh.symm)]
  rw [findH1, hp]
  simp

theorem findH1_h1open (B : List Char) :
    findH1 ('<' :: 'h' :: '1' :: '>' :: B) = some B := rfl

theorem findH1_skip_text :
    ∀ {l : List Char} (R : List Char), l.all plainChar = true →
      findH1 (l ++ ('<' :: '/' :: 'p' :: '>' :: '\n' :: R)) = findH1 R := by
  intro l
  induction l with
  | nil => intro R _; rfl
  | cons a as ih =>
    intro R h
    simp only [List.all_cons, Bool.and_eq_true] at h
    obtain ⟨hlt, _⟩ := plainChar_ne_special h.1
    rw [List.cons_append, findH1_cons_ne _ hlt]
    exact ih R h.2

theorem countHashes_cons_ne {c : Char} (rest : List Char) (h : c ≠ '#') :
    countHashes (c :: rest) = (0, c :: rest) := by
  rw [countHashes, if_neg h]

theorem headingLevel_nonhash {c : Char} (rest : List Char) (h : c ≠ '#') :
    headingLevel (c :: rest) = none := by
  unfold headingLevel
  rw [countHashes_cons_ne rest h]
  simp

theorem lineToHtml_plain_nonheading (l : List Char) (hp : l.all plainChar = true) :
    lineToHtml l = [] ∨
      lineToHtml l = '<' :: 'p' :: '>' ::
        (l ++ ('<' :: '/' :: 'p' :: '>' :: '\n' :: [])) := by
  by_cases hb : l.all (fun c => c = ' ') = true
  · left
    simp [lineToHtml, hb]
  · right
    rcases l with _ | ⟨a, ls⟩
    · exact absurd rfl hb
    · simp only [List.all_cons, Bool.and_eq_true] at hp
      obtain ⟨_, _, _, _, hhash, _⟩ := plainChar_ne_special hp.1
      rw [lineToHtml, if_neg hb, headingLevel_nonhash ls hhash]
      have hall : ((a :: ls).all plainChar) = true := by
        simp [List.all_cons, hp.1, hp.2]
      simp only [inlineHtml]
      rw [inline_plain false false hall]

theorem findH1_skip_plain_lines :
    ∀ {pre : List (List Char)} (R : List Char),
      (pre.all fun l => l.all plainChar) = true →
      findH1 ((pre.map lineToHtml).flatten ++ R) = findH1 R := by
  intro pre
  induction pre with
  | nil => intro R _; rfl
  | cons l ls ih =>
    intro R h
    simp only [List.all_cons, Bool.and_eq_true] at h
    rcases lineToHtml_plain_nonheading l h.1 with he | he
    · rw [List.map_cons, List.flatten_cons, he, List.nil_append]
      exact ih R h.2
    · rw [List.map_cons, List.flatten_cons, he]
      simp only [List.cons_append, List.append_assoc, List.nil_append]
      have h0 :
          findH1 ('<' :: 'p' :: '>' ::
            (l ++ ('<' :: '/' :: 'p' :: '>' :: '\n' ::
              ((ls.map lineToHtml).flatten ++ R)))) =
          findH1 (l ++ ('<' :: '/' :: 'p' :: '>' :: '\n' ::
              ((ls.map lineToHtml).flatten ++ R))) := rfl
      rw [h0, findH1_skip_text _ h.1, ih R h.2]

theorem lineToHtml_h1 (t : List Char) (htr : trimSpaces t = t) :
    lineToHtml ('#' :: ' ' :: t) =
      '<' :: 'h' :: '1' :: '>' ::
        (inlineHtml t ++ ('<' :: '/' :: 'h' :: '1' :: '>' :: '\n' :: [])) := by
  have hb : (('#' :: ' ' :: t).all fun c => c = ' ') = false := by
    simp [List.all_cons]
  have hh : headingLevel ('#' :: ' ' :: t) = some (1, trimSpaces t) := rfl
  rw [lineToHtml, if_neg (by simp [hb]), hh, htr]
  rfl

/-- C8: converting a Markdown document whose lines are plain text except
for exactly one `# Title` heading line and re-parsing the output HTML's
first `<h1>` yields exactly the literal heading text. -/
theorem c8_roundtrip (content t : List Char) (pre post : List (List Char))
    (hsplit : splitLines content = pre ++ ('#' :: ' ' :: t) :: post)
    (hpre : (pre.all fun l => l.all plainChar) = true)
    (ht : t.all plainChar = true) (hne : t ≠ []) (htr : trimSpaces t = t) :
    reparsedH1Text content = some t := by
  have hmd : mdToHtml content =
      (pre.map lineToHtml).flatten ++
        ('<' :: 'h' :: '1' :: '>' ::
          (t ++ ('<' :: '/' :: 'h' :: '1' :: '>' :: '\n' ::
            (post.map lineToHtml).flatten))) := by
    rw [mdToHtml, hsplit, List.map_append, List.map_cons, List.flatten_append,
      List.flatten_cons, lineToHtml_h1 t htr]
    simp only [inlineHtml, inline_plain false false ht, List.cons_append,
      List.append_assoc, List.nil_append]
  have hfind : findH1 (mdToHtml content) =
      some (t ++ ('<' :: '/' :: 'h' :: '1' :: '>' :: '\n' ::
        (post.map lineToHtml).flatten)) := by
    rw [hmd, findH1_skip_plain_lines _ hpre, findH1_h1open]
  have hfirst : firstTextNode (t ++ ('<' :: '/' :: 'h' :: '1' :: '>' :: '\n' ::
      (post.map lineToHtml).flatten)) = some t :=
    firstTextNode_plain_append t _ hne ht
  rw [reparsedH1Text, hfind]
  exact hfirst

/-- Witness for C8: the concrete document with a plain line, the heading
`# Title`, and a trailing line. -/
theorem c8_roundtrip_witness : reparsedH1Text contentC8 = some "Title".toList :=
  c8_roundtrip contentC8 "Title".toList ["Intro text".toList]
    ["More *text*".toList] (by decide) (by decide) (by decide) (by decide)
    (by decide)

/-! ## Claim C10: emphasis inside a heading -/

theorem hasCloser_inner :
    ∀ {u : List Char} (p : Bool) (t₃ : List Char), u.all plainChar = true →
      u.getLast? ≠ some ' ' → u ≠ [] →
      hasCloser p (u ++ '*' :: t₃) = true := by
  intro u
  induction u with
  | nil => intro p t₃ _ _ hne; exact absurd rfl hne
  | cons a as ih =>
    intro p t₃ h hl _
    simp only [List.all_cons, Bool.and_eq_true] at h
    obtain ⟨_, _, _, hstar, _⟩ := plainChar_ne_special h.1
    rcases as with _ | ⟨b, as'⟩
    · have ha : a ≠ ' ' := by
        intro hsp
        exact hl (by simp [hsp])
      rw [List.cons_append, List.nil_append, hasCloser, if_neg hstar,
        hasCloser, if_pos rfl]
      simp [ha]
    · rw [List.cons_append, hasCloser, if_neg hstar]
      refine ih _ t₃ h.2 ?_ (by simp)
      rw [List.getLast?_cons_cons] at hl
      exact hl

theorem inlineAux_em_content :
    ∀ {u : List Char} (p : Bool) (t₃ : List Char), u.all plainChar = true →
      u.getLast? ≠ some ' ' → u ≠ [] →
      inlineAux true p (u ++ '*' :: t₃) =
        u ++ ('<' :: '/' :: 'e' :: 'm' :: '>' :: inlineAux false true t₃) := by
  intro u
  induction u with
  | nil => intro p t₃ _ _ hne; exact absurd rfl hne
  | cons a as ih =>
    intro p t₃ h hl _
    simp only [List.all_cons, Bool.and_eq_true] at h
    rcases as with _ | ⟨b, as'⟩
    · have ha : a ≠ ' ' := by
        intro hsp
        exact hl (by simp [hsp])
      rw [List.cons_append, List.nil_append,
        inlineAux_cons_plain true p _ h.1]
      have hd : (decide (a ≠ ' ')) = true := by simp [ha]
      rw [hd]
      have hclose : inlineAux true true ('*' :: t₃) =
          '<' :: '/' :: 'e' :: 'm' :: '>' :: inlineAux false true t₃ := by
        rcases t₃ with _ | ⟨e, r⟩
        · rfl
        · rfl
      rw [hclose]
      rfl
    · rw [List.cons_append, inlineAux_cons_plain true p _ h.1]
      rw [List.getLast?_cons_cons] at hl
      rw [ih _ t₃ h.2 hl (by simp)]
      rfl

theorem inlineAux_open_em (p : Bool) (inner t₃ : List Char)
    (hi : inner.all plainChar = true) (hine : inner ≠ [])
    (hhead : inner.head? ≠ some ' ') (hlast : inner.getLast? ≠ some ' ')
    (h3 : t₃.all plainChar = true) :
    inlineAux false p ('*' :: (inner ++ '*' :: t₃)) =
      '<' :: 'e' :: 'm' :: '>' ::
        (inner ++ ('<' :: '/' :: 'e' :: 'm' :: '>' :: t₃)) := by
  rcases inner with _ | ⟨d, inner'⟩
  · exact absurd rfl hine
  · have hds : d ≠ ' ' := by
      intro hsp
      exact hhead (by simp [hsp])
    have hall : ((d :: inner').all plainChar) = true := hi
    have hemo : emOpens ((d :: inner') ++ '*' :: t₃) = true := by
      rw [List.cons_append, emOpens]
      have hcl : hasCloser false ((d :: inner') ++ '*' :: t₃) = true :=
        hasCloser_inner false t₃ hall hlast (by simp)
      rw [List.cons_append] at hcl
      simp [hds, hcl]
    rw [List.cons_append, inlineAux.eq_3, if_neg (by decide), if_pos rfl,
      if_neg (by decide)]
    rw [List.cons_append] at hemo
    rw [hemo, if_pos rfl]
    have hcontent := inlineAux_em_content (u := d :: inner') false t₃
      hall hlast (by simp)
    rw [List.cons_append] at hcontent
    rw [hcontent, inline_plain false true h3]

/-- C10: for a heading line `# t1*inner*t3` whose emphasis delimiters
are valid per the CommonMark flanking rules (the emphasis content starts
and ends with a non-space character), the derived PageLink title is
exactly the heading's first text node `t1`: the emphasis content and
everything after the nested `<em>` element are not included in the
title. -/
theorem c10_first_text_node (content t₁ inner t₃ : List Char)
    (hsplit : splitLines content =
      ['#' :: ' ' :: (t₁ ++ '*' :: (inner ++ '*' :: t₃))])
    (h1 : t₁.all plainChar = true) (hne : t₁ ≠ [])
    (hi : inner.all plainChar = true) (hine : inner ≠ [])
    (hhead : inner.head? ≠ some ' ') (hlast : inner.getLast? ≠ some ' ')
    (h3 : t₃.all plainChar = true)
    (htr : trimSpaces (t₁ ++ '*' :: (inner ++ '*' :: t₃)) =
      t₁ ++ '*' :: (inner ++ '*' :: t₃)) :
    pageTitleOf content = some t₁ := by
  have hinner : inlineHtml (t₁ ++ '*' :: (inner ++ '*' :: t₃)) =
      t₁ ++ ('<' :: 'e' :: 'm' :: '>' ::
        (inner ++ ('<' :: '/' :: 'e' :: 'm' :: '>' :: t₃))) := by
    simp only [inlineHtml]
    rw [inlineAux_append_plain false _ _ h1,
      inlineAux_open_em _ inner t₃ hi hine hhead hlast h3]
  have hmd : mdToHtml content =
      '<' :: 'h' :: '1' :: '>' ::
        (t₁ ++ ('<' :: 'e' :: 'm' :: '>' ::
          ((inner ++ ('<' :: '/' :: 'e' :: 'm' :: '>' :: t₃)) ++
            ('<' :: '/' :: 'h' :: '1' :: '>' :: '\n' :: [])))) := by
    rw [mdToHtml, hsplit, List.map_cons, List.map_nil, List.flatten_cons,
      List.flatten_nil, List.append_nil, lineToHtml_h1 _ htr, hinner]
    simp only [List.cons_append, List.append_assoc]
  have hfirst : firstTextNode (t₁ ++ ('<' :: 'e' :: 'm' :: '>' ::
      ((inner ++ ('<' :: '/' :: 'e' :: 'm' :: '>' :: t₃)) ++
        ('<' :: '/' :: 'h' :: '1' :: '>' :: '\n' :: [])))) = some t₁ :=
    firstTextNode_plain_append t₁ _ hne h1
  have hext : extractTitleOutcome content = Outcome.ok (debugFormat t₁) := by
    simp only [extractTitleOutcome, hmd, findH1_h1open, hfirst]
  have hdq : removeQuotes (debugFormat t₁) = t₁ := by
    have h1s : t₁.all titleSafeChar = true := all_titleSafe_of_all_plain h1
    have hflat : debugFormat t₁ = '"' :: (t₁ ++ ['"']) := by
      simp only [debugFormat, flatten_escapeDebug_safe h1s]
      rfl
    rw [hflat, removeQuotes_quote_cons, removeQuotes_safe_append h1s]
  simp only [pageTitleOf, titleQuotedOf, hext, hdq]

/-- Witness for C10: the heading `# Hello *World*` yields the title
`Hello ` (the text node before the `<em>`), not `Hello World`. -/
theorem c10_first_text_node_witness :
    pageTitleOf contentC10 = some "Hello ".toList :=
  c10_first_text_node contentC10 "Hello ".toList "World".toList []
    (by decide) (by decide) (by decide) (by decide) (by decide) (by decide)
    (by decide) (by decide) (by decide)

end MdBlogGen
